import Mathlib

/-!
Verification of the Weighted Effect Synthesis Engine of the
Dissertation-Model-Simulation repository.

The Python sources are shallowly embedded as follows:

* Missing values (NaN) are modelled by `Option ℚ` (called `PyVal`): `none`
  is NaN, `some q` a finite float, with exact rational arithmetic standing
  in for IEEE doubles.
* Fallible numpy calls are modelled with `Except String`: `np.average`
  raises `ZeroDivisionError` when the weights sum to zero, and that is the
  only exception reachable in the code under study.
* Square roots land in `ℝ` via `Real.sqrt`; everything before the final
  square root is exact rational arithmetic, mirroring the source
  expressions term by term.

The embedded functions keep their Python names: `weighted_mean`,
`weighted_std`, `weighted_n_eff`, `weighted_corr`, `get_effect_row`,
`interpret_effect_size`, `get_path`, and `computeDoseEffects`
(for `compute_dose_effects`).  `PlotDescriptives.weighted_sem` and
`PlotDeepCuts.weighted_sem` embed the two distinct `weighted_sem`
implementations found in `plot_descriptives.py` and `plot_deep_cuts.py`.
-/

/-- A Python float that may be NaN: `none` is NaN. -/
abbrev PyVal := Option ℚ

/-- The joint non-missing mask of numpy code
`mask = ~np.isnan(x) & ~np.isnan(w)` applied to the aligned pair of
vectors: keep the pairs where both entries are non-NaN. -/
def maskPairs (x w : List PyVal) : List (ℚ × ℚ) :=
  (x.zip w).filterMap fun p =>
    match p with
    | (some a, some b) => some (a, b)
    | _ => none

/-- Sum of the weights of a masked pair list. -/
def sumW (ps : List (ℚ × ℚ)) : ℚ :=
  (ps.map fun p => p.2).sum

/-- Sum of weight-times-value of a masked pair list. -/
def sumWX (ps : List (ℚ × ℚ)) : ℚ :=
  (ps.map fun p => p.2 * p.1).sum

/-- Embedding of `np.average(values, weights=w)`: numpy raises
`ZeroDivisionError` when the weights sum to zero, otherwise returns the
weighted average. -/
def npAverage (ps : List (ℚ × ℚ)) : Except String ℚ :=
  if sumW ps = 0 then .error "ZeroDivisionError: Weights sum to zero"
  else .ok (sumWX ps / sumW ps)

/-- `weighted_mean(x, w)` as defined identically in `plot_descriptives.py`
and `plot_deep_cuts.py`: NaN when the joint mask is empty, otherwise
`np.average(x[mask], weights=w[mask])` (which raises when the masked
weights sum to zero). -/
def weighted_mean (x w : List PyVal) : Except String PyVal :=
  let ps := maskPairs x w
  if ps.isEmpty then .ok none
  else (npAverage ps).map some

/-- The variance computed inside `weighted_std` (both files):
`avg = np.average(x[mask], weights=w[mask])` followed by
`variance = np.average((x[mask] - avg)**2, weights=w[mask])`.
Factored out of `weighted_std` so that the rational part stays separate
from the final square root. -/
def weighted_var (x w : List PyVal) : Except String PyVal :=
  let ps := maskPairs x w
  if ps.isEmpty then .ok none
  else
    match npAverage ps with
    | .error e => .error e
    | .ok avg => (npAverage (ps.map fun p => ((p.1 - avg) ^ 2, p.2))).map some

/-- `weighted_std(x, w)` (both files): the square root of the weighted
population variance, NaN on an empty mask. -/
noncomputable def weighted_std (x w : List PyVal) : Except String (Option ℝ) :=
  (weighted_var x w).map fun v => v.map fun q => Real.sqrt (q : ℝ)

/-- `weighted_sem(x, w)` from `plot_descriptives.py`: here
`n_eff = mask.sum()` is the RAW COUNT of jointly non-missing entries
(the source comment reads: use sample size as approximation), NaN when
that count is at most 1, else `weighted_std(x, w) / np.sqrt(n_eff)`. -/
noncomputable def PlotDescriptives.weighted_sem (x w : List PyVal) :
    Except String (Option ℝ) :=
  let n_eff := (maskPairs x w).length
  if n_eff ≤ 1 then .ok none
  else (weighted_std x w).map fun v => v.map (· / Real.sqrt (n_eff : ℝ))

/-- `weighted_n_eff(w)` from `plot_deep_cuts.py`: drop NaNs, return `0`
on an empty vector, else Kish's `(Σw)² / Σ(w²)`.  When the remaining
weights are all zero the float quotient is `0.0 / 0.0 = NaN`, modelled
as `none`. -/
def weighted_n_eff (w : List PyVal) : Option ℚ :=
  let ws := w.filterMap id
  if ws.isEmpty then some 0
  else
    let s2 := (ws.map fun v => v ^ 2).sum
    if s2 = 0 then none
    else some (ws.sum ^ 2 / s2)

/-- `weighted_sem(x, w)` from `plot_deep_cuts.py`:
`n_eff = weighted_n_eff(w[mask])`, NaN when `n_eff <= 1`, else
`weighted_std(x, w) / np.sqrt(n_eff)`.  When `n_eff` is NaN the Python
comparison `n_eff <= 1` is False, so the code falls through and divides
by `np.sqrt(nan) = nan`: any value becomes NaN, and in fact
`weighted_std` raises first because NaN `n_eff` forces all-zero weights. -/
noncomputable def PlotDeepCuts.weighted_sem (x w : List PyVal) :
    Except String (Option ℝ) :=
  let ps := maskPairs x w
  match weighted_n_eff (ps.map fun p => some p.2) with
  | some ne =>
      if ne ≤ 1 then .ok none
      else (weighted_std x w).map fun v => v.map (· / Real.sqrt ((ne : ℚ) : ℝ))
  | none => (weighted_std x w).map fun _ => none

/-- Joint non-missing mask of three aligned vectors, used by
`weighted_corr`: a triple `(x, y, w)` survives when all three entries
are non-NaN. -/
def maskTriples (x y w : List PyVal) : List (ℚ × ℚ × ℚ) :=
  ((x.zip y).zip w).filterMap fun p =>
    match p with
    | ((some a, some b), some c) => some (a, b, c)
    | _ => none

/-- `w_sum = w.sum()` over the masked triples. -/
def tSumW (ts : List (ℚ × ℚ × ℚ)) : ℚ :=
  (ts.map fun t => t.2.2).sum

/-- `x_bar = np.sum(w * x) / w_sum` over the masked triples. -/
def xBar (ts : List (ℚ × ℚ × ℚ)) : ℚ :=
  (ts.map fun t => t.2.2 * t.1).sum / tSumW ts

/-- `y_bar = np.sum(w * y) / w_sum` over the masked triples. -/
def yBar (ts : List (ℚ × ℚ × ℚ)) : ℚ :=
  (ts.map fun t => t.2.2 * t.2.1).sum / tSumW ts

/-- `cov = np.sum(w * (x - x_bar) * (y - y_bar)) / w_sum`. -/
def covW (ts : List (ℚ × ℚ × ℚ)) : ℚ :=
  (ts.map fun t => t.2.2 * (t.1 - xBar ts) * (t.2.1 - yBar ts)).sum / tSumW ts

/-- `var_x = np.sum(w * (x - x_bar) ** 2) / w_sum`. -/
def varXW (ts : List (ℚ × ℚ × ℚ)) : ℚ :=
  (ts.map fun t => t.2.2 * (t.1 - xBar ts) ^ 2).sum / tSumW ts

/-- `var_y = np.sum(w * (y - y_bar) ** 2) / w_sum`. -/
def varYW (ts : List (ℚ × ℚ × ℚ)) : ℚ :=
  (ts.map fun t => t.2.2 * (t.2.1 - yBar ts) ^ 2).sum / tSumW ts

/-- `weighted_corr(x, y, w)` from `plot_descriptives.py`: NaN when fewer
than 2 jointly valid triples remain, when the masked weights sum to
zero, or when either weighted variance is nonpositive; otherwise
`cov / np.sqrt(var_x * var_y)`. -/
noncomputable def weighted_corr (x y w : List PyVal) : Option ℝ :=
  let ts := maskTriples x y w
  if ts.length < 2 then none
  else if tSumW ts = 0 then none
  else if varXW ts ≤ 0 ∨ varYW ts ≤ 0 then none
  else some ((covW ts : ℝ) / Real.sqrt ((varXW ts : ℚ) * varYW ts))

/-- One row of the bootstrap results table read by
`build_plain_language_summary.py`; only the columns that
`get_effect_row` callers use are modelled. -/
structure BootRow where
  parameter : String
  est : ℚ
  ci_lower : ℚ
  ci_upper : ℚ
deriving DecidableEq

/-- `get_effect_row(df, param)` from `build_plain_language_summary.py`:
`None` when the frame is `None` (or empty, which the filter handles the
same way), else the first row whose `parameter` column equals `param`
(`row.iloc[0]`). -/
def get_effect_row (df : Option (List BootRow)) (param : String) :
    Option BootRow :=
  match df with
  | none => none
  | some rows => (rows.filter fun r => r.parameter == param).head?

/-- Python `abs` on a possibly-NaN float: `abs(nan) = nan`. -/
def pyAbs (v : PyVal) : PyVal := v.map fun q => |q|

/-- A Python `<` comparison against a finite constant: every comparison
with NaN is False. -/
def pyLt (a : PyVal) (b : ℚ) : Bool :=
  match a with
  | none => false
  | some q => decide (q < b)

/-- `interpret_effect_size(beta)` from `build_plain_language_summary.py`:
Cohen-style magnitude tiers on `abs(beta)`, with Python float comparison
semantics (NaN comparisons are all False). -/
def interpret_effect_size (beta : PyVal) : String :=
  let ab := pyAbs beta
  if pyLt ab 0.10 then "negligible"
  else if pyLt ab 0.30 then "small"
  else if pyLt ab 0.50 then "medium"
  else "large"

/-- One structural-path record as produced by `extract_key_paths` in
`transform-results.py`; `compute_dose_effects` reads only the `id`,
`estimate` and `se` fields (the JSON also carries from/to/z/pvalue/
std_estimate, which the Deriver never touches). `none` models JSON
`null`. -/
structure PathRec where
  id : String
  estimate : Option ℚ
  se : Option ℚ
deriving DecidableEq

/-- The inner helper `get_path(paths, label)` of `compute_dose_effects`:
first record whose `id` equals the label, else `None`. -/
def get_path (paths : List PathRec) (label : String) : Option PathRec :=
  paths.find? fun p => p.id == label

/-- The per-outcome coefficient triple built by `compute_dose_effects`. -/
structure OutcomeCoef where
  main : Option ℚ
  moderation : Option ℚ
  se : Option ℚ
deriving DecidableEq

/-- The `coefficients` dictionary of `compute_dose_effects`. -/
structure Coefs where
  distress : OutcomeCoef
  engagement : OutcomeCoef
  adjustment : OutcomeCoef
deriving DecidableEq

/-- The `validation` payload returned when coefficients are missing. -/
structure Validation where
  status : String
  missing : List String
deriving DecidableEq

/-- One entry of the `effects` list: the dose-conditional effect and CI
of the three outcomes at one grid dose. -/
structure EffectPoint where
  creditDose : ℕ
  distressEffect : ℚ
  distressCI : ℚ × ℚ
  engagementEffect : ℚ
  engagementCI : ℚ × ℚ
  adjustmentEffect : ℚ
  adjustmentCI : ℚ × ℚ
deriving DecidableEq

/-- The result of `compute_dose_effects`; the constant metadata fields
(`creditDoseRange`, `johnsonNeymanPoints`), identical in both branches,
are omitted. -/
structure DoseResult where
  coefficients : Coefs
  effects : List EffectPoint
  validation : Option Validation
deriving DecidableEq

/-- Python `round(q, 4)` modelled as rounding to the nearest multiple of
`10⁻⁴` (ties at that granularity do not arise in the claims). -/
def round4 (q : ℚ) : ℚ :=
  ((round (q * 10000) : ℤ) : ℚ) / 10000

/-- `dose_range = list(range(0, 81, 5))`: the 17 grid doses 0, 5, …, 80. -/
def doseRange : List ℕ := List.range' 0 17 5

/-- `dose_units = (dose - 12) / 10`: 10-credit units above the
threshold of 12. -/
def dose_units (dose : ℚ) : ℚ := (dose - 12) / 10

/-- The `missing` list accumulated by `compute_dose_effects`: a label is
appended when its path row is absent or its estimate is `None`, in the
source order a1, a1z, a2, a2z, c, cz, then the SE checks a1_se, a2_se,
c_se. -/
def missingLabels (paths : List PathRec) : List String :=
  let estPairs : List (String × Option PathRec) :=
    [("a1", get_path paths "a1"), ("a1z", get_path paths "a1z"),
     ("a2", get_path paths "a2"), ("a2z", get_path paths "a2z"),
     ("c", get_path paths "c"), ("cz", get_path paths "cz")]
  let sePairs : List (String × Option PathRec) :=
    [("a1_se", get_path paths "a1"), ("a2_se", get_path paths "a2"),
     ("c_se", get_path paths "c")]
  (estPairs.filterMap fun lp =>
    match lp.2 with
    | none => some lp.1
    | some r =>
      match r.estimate with
      | none => some lp.1
      | some _ => none)
  ++ (sePairs.filterMap fun lp =>
    match lp.2 with
    | none => some lp.1
    | some r =>
      match r.se with
      | none => some lp.1
      | some _ => none)

/-- `compute_dose_effects(main_paths)` from
`webapp/scripts/transform-results.py`.  When any needed coefficient or
SE is missing the function returns a single all-or-nothing record with
an empty `effects` list and a `missing_coefficients` validation status;
otherwise it maps the grid doses to effect points.  In the non-missing
branch the guard `missing = []` guarantees every `Option` below is
`some` (Python would raise a `TypeError` otherwise), so `getD 0` never
actually substitutes.  The loop body's first three lines in the source
compute `effect`/`ci_half` into variables that are never read
(dead code) and are not modelled. -/
def computeDoseEffects (main_paths : List PathRec) : DoseResult :=
  let a1 := get_path main_paths "a1"
  let a1z := get_path main_paths "a1z"
  let a2 := get_path main_paths "a2"
  let a2z := get_path main_paths "a2z"
  let c := get_path main_paths "c"
  let cz := get_path main_paths "cz"
  let coefficients : Coefs :=
    { distress :=
        { main := a1.bind PathRec.estimate
          moderation := a1z.bind PathRec.estimate
          se := a1.bind PathRec.se }
      engagement :=
        { main := a2.bind PathRec.estimate
          moderation := a2z.bind PathRec.estimate
          se := a2.bind PathRec.se }
      adjustment :=
        { main := c.bind PathRec.estimate
          moderation := cz.bind PathRec.estimate
          se := c.bind PathRec.se } }
  let missing := missingLabels main_paths
  if missing.isEmpty then
    let effects := doseRange.map fun (dose : ℕ) =>
      let du := dose_units (dose : ℚ)
      let dMain := coefficients.distress.main.getD 0
      let dMod := coefficients.distress.moderation.getD 0
      let dSe := coefficients.distress.se.getD 0
      let eMain := coefficients.engagement.main.getD 0
      let eMod := coefficients.engagement.moderation.getD 0
      let eSe := coefficients.engagement.se.getD 0
      let aMain := coefficients.adjustment.main.getD 0
      let aMod := coefficients.adjustment.moderation.getD 0
      let aSe := coefficients.adjustment.se.getD 0
      let distress_effect := dMain + du * dMod
      let distress_ci := 1.96 * dSe * (1 + |du| * 0.1)
      let engagement_effect := eMain + du * eMod
      let engagement_ci := 1.96 * eSe * (1 + |du| * 0.1)
      let adjustment_effect := aMain + du * aMod
      let adjustment_ci := 1.96 * aSe * (1 + |du| * 0.1)
      { creditDose := dose
        distressEffect := round4 distress_effect
        distressCI := (round4 (distress_effect - distress_ci),
                       round4 (distress_effect + distress_ci))
        engagementEffect := round4 engagement_effect
        engagementCI := (round4 (engagement_effect - engagement_ci),
                         round4 (engagement_effect + engagement_ci))
        adjustmentEffect := round4 adjustment_effect
        adjustmentCI := (round4 (adjustment_effect - adjustment_ci),
                         round4 (adjustment_effect + adjustment_ci)) }
    { coefficients := coefficients, effects := effects, validation := none }
  else
    { coefficients := coefficients
      effects := []
      validation := some { status := "missing_coefficients", missing := missing } }

/-- The weighted mean of a masked pair list in closed form (the value
`npAverage` returns when the weights do not sum to zero). -/
def meanQ (ps : List (ℚ × ℚ)) : ℚ := sumWX ps / sumW ps

/-- The weighted population variance of a masked pair list in closed
form (the rational value inside `weighted_var` when defined). -/
def varQ (ps : List (ℚ × ℚ)) : ℚ :=
  (ps.map fun p => p.2 * (p.1 - meanQ ps) ^ 2).sum / sumW ps

/-- Reference definition taken from the spec wording for the
refinement claim: the ordinary (unweighted) mean. -/
def specMean (l : List ℚ) : ℚ := l.sum / l.length

/-- Reference definition taken from the spec wording: the unweighted
population variance. -/
def specPopVar (l : List ℚ) : ℚ :=
  (l.map fun v => (v - specMean l) ^ 2).sum / l.length

/-- Reference definition taken from the spec wording: the unweighted
population standard deviation. -/
noncomputable def specPopStd (l : List ℚ) : ℝ :=
  Real.sqrt ((specPopVar l : ℚ) : ℝ)

/-! ## Computation lemmas for the mask helpers -/

lemma maskPairs_nil : maskPairs [] [] = [] := rfl

lemma maskPairs_nil_left (ws : List PyVal) : maskPairs [] ws = [] := by
  cases ws <;> rfl

lemma maskPairs_nil_right (xs : List PyVal) : maskPairs xs [] = [] := by
  cases xs <;> rfl

lemma maskPairs_cons_some (a b : ℚ) (xs ws : List PyVal) :
    maskPairs (some a :: xs) (some b :: ws) = (a, b) :: maskPairs xs ws := rfl

lemma maskPairs_cons_none_left (v : PyVal) (xs ws : List PyVal) :
    maskPairs (none :: xs) (v :: ws) = maskPairs xs ws := by
  cases v <;> rfl

lemma maskPairs_cons_none_right (v : PyVal) (xs ws : List PyVal) :
    maskPairs (v :: xs) (none :: ws) = maskPairs xs ws := by
  cases v <;> rfl

lemma dropNone_nil : (([] : List PyVal)).filterMap id = [] := rfl

lemma dropNone_cons_some (a : ℚ) (l : List PyVal) :
    ((some a : PyVal) :: l).filterMap id = a :: l.filterMap id := rfl

lemma dropNone_cons_none (l : List PyVal) :
    ((none : PyVal) :: l).filterMap id = l.filterMap id := rfl

lemma maskTriples_cons_sss (a b c : ℚ) (xs ys ws : List PyVal) :
    maskTriples (some a :: xs) (some b :: ys) (some c :: ws)
      = (a, b, c) :: maskTriples xs ys ws := rfl

lemma maskTriples_cons_none₁ (v u : PyVal) (xs ys ws : List PyVal) :
    maskTriples (none :: xs) (v :: ys) (u :: ws) = maskTriples xs ys ws := by
  cases v <;> cases u <;> rfl

lemma maskTriples_cons_none₂ (v u : PyVal) (xs ys ws : List PyVal) :
    maskTriples (v :: xs) (none :: ys) (u :: ws) = maskTriples xs ys ws := by
  cases v <;> cases u <;> rfl

lemma maskTriples_cons_none₃ (v u : PyVal) (xs ys ws : List PyVal) :
    maskTriples (v :: xs) (u :: ys) (none :: ws) = maskTriples xs ys ws := by
  cases v <;> cases u <;> rfl

/-! ## Claims C9 and C10: Parameter Table Extractor and magnitude tiers -/

lemma head?_filter_eq_find? {α : Type} (p : α → Bool) (l : List α) :
    (l.filter p).head? = l.find? p := by
  induction l with
  | nil => rfl
  | cons a t ih => cases h : p a <;> simp [List.filter_cons, List.find?_cons, h, ih]

/-- C9: `get_effect_row` returns a not-found `None` when zero rows match
the label, the unique matching row when exactly one matches, and under
duplicate labels deterministically the first occurrence (the semantics
of `List.find?`), raising no error (it is total, and also returns `None`
on a `None` frame). -/
theorem c9_get_effect_row (rows : List BootRow) (param : String) :
    get_effect_row none param = none
    ∧ get_effect_row (some rows) param = rows.find? (fun r => r.parameter == param)
    ∧ ((∀ r ∈ rows, r.parameter ≠ param) → get_effect_row (some rows) param = none)
    ∧ (∀ r, (rows.filter fun q => q.parameter == param) = [r] →
        get_effect_row (some rows) param = some r) := by
  refine ⟨rfl, ?_, ?_, ?_⟩
  · simp [get_effect_row, head?_filter_eq_find?]
  · intro h
    have hf : (rows.filter fun q => q.parameter == param) = [] := by
      rw [List.filter_eq_nil_iff]
      intro a ha
      simpa using h a ha
    simp [get_effect_row, hf]
  · intro r hr
    simp [get_effect_row, hr]

/-- C9 witness: on a concrete table with a duplicate label, an absent
label and a unique label, `get_effect_row` behaves as stated. -/
theorem c9_witness :
    get_effect_row (some [⟨"a1", 1, 0, 2⟩, ⟨"b1", 2, 1, 3⟩, ⟨"a1", 5, 4, 6⟩]) "zz" = none
    ∧ get_effect_row (some [⟨"a1", 1, 0, 2⟩, ⟨"b1", 2, 1, 3⟩, ⟨"a1", 5, 4, 6⟩]) "b1"
        = some ⟨"b1", 2, 1, 3⟩
    ∧ get_effect_row (some [⟨"a1", 1, 0, 2⟩, ⟨"b1", 2, 1, 3⟩, ⟨"a1", 5, 4, 6⟩]) "a1"
        = some ⟨"a1", 1, 0, 2⟩ := by
  refine ⟨?_, ?_, ?_⟩
  · exact (c9_get_effect_row [⟨"a1", 1, 0, 2⟩, ⟨"b1", 2, 1, 3⟩, ⟨"a1", 5, 4, 6⟩] "zz").2.2.1
      (by intro r hr; fin_cases hr <;> simp)
  · exact (c9_get_effect_row [⟨"a1", 1, 0, 2⟩, ⟨"b1", 2, 1, 3⟩, ⟨"a1", 5, 4, 6⟩] "b1").2.2.2
      ⟨"b1", 2, 1, 3⟩ rfl
  · exact ((c9_get_effect_row [⟨"a1", 1, 0, 2⟩, ⟨"b1", 2, 1, 3⟩, ⟨"a1", 5, 4, 6⟩] "a1").2.1).trans rfl

/-- C10: `interpret_effect_size` is total over all float inputs (it
always lands in one of the four tiers) and maps a NaN input to the tier
string "large", because every threshold comparison with NaN is False
so control falls through to the final branch. -/
theorem c10_interpret_effect_size :
    (∀ b : PyVal,
      interpret_effect_size b = "negligible" ∨ interpret_effect_size b = "small"
        ∨ interpret_effect_size b = "medium" ∨ interpret_effect_size b = "large")
    ∧ interpret_effect_size none = "large" := by
  constructor
  · intro b
    simp only [interpret_effect_size]
    split_ifs <;> simp
  · rfl

/-! ## Claim C5: weighted_mean on zero total weight -/

/-- C5 counterexample: on `x = [1, 2]` with weights `[0, 0]` the joint
mask is non-empty and the weights are all zero; the claim says
`weighted_mean` returns NaN and never raises, but the code propagates
numpy's `ZeroDivisionError` from `np.average` (only the empty-mask case
is guarded). -/
theorem c5_counterexample :
    weighted_mean [some 1, some 2] [some 0, some 0]
      = .error "ZeroDivisionError: Weights sum to zero" := by
  norm_num [weighted_mean, maskPairs_cons_some, maskPairs_nil, npAverage, sumW,
    sumWX, Except.map]

/-- C5 amended: `weighted_mean` returns NaN exactly when the joint mask
is empty; on a non-empty mask whose weights sum to zero it raises
`ZeroDivisionError` (numpy's behaviour inside `np.average`) instead of
returning NaN. -/
theorem c5_amended (x w : List PyVal) :
    (maskPairs x w = [] → weighted_mean x w = .ok none)
    ∧ (maskPairs x w ≠ [] → sumW (maskPairs x w) = 0 →
        weighted_mean x w = .error "ZeroDivisionError: Weights sum to zero") := by
  constructor
  · intro h
    simp [weighted_mean, h]
  · intro h hz
    have hne : (maskPairs x w).isEmpty = false := by
      simpa [List.isEmpty_iff] using h
    simp [weighted_mean, hne, npAverage, hz, Except.map]

/-- C5 witness: an all-missing weight vector yields NaN, and weights
`[1, -1]` (non-empty mask, zero total) raise. -/
theorem c5_witness :
    weighted_mean [some (1 : ℚ)] [none] = .ok none
    ∧ weighted_mean [some (1 : ℚ), some 2] [some 1, some (-1)]
        = .error "ZeroDivisionError: Weights sum to zero" := by
  constructor
  · exact (c5_amended [some (1 : ℚ)] [none]).1 (by
      simp [maskPairs_cons_none_right, maskPairs_nil_left])
  · exact (c5_amended [some (1 : ℚ), some 2] [some 1, some (-1)]).2
      (by simp [maskPairs_cons_some, maskPairs_nil])
      (by norm_num [maskPairs_cons_some, maskPairs_nil, sumW])

/-! ## Claims C1 and C2: the Dose-Conditional Effect Deriver on missing
coefficients -/

/-- C1 counterexample: a parameter table carrying usable `a1`, `a1z`,
`a2`, `c`, `cz` rows (so the distress and adjustment outcomes lack
nothing) but no `a2z` row.  The claim says the Deriver still produces
curve points for the unaffected outcomes; the code instead returns an
all-or-nothing result whose `effects` list is empty for every outcome,
with one table-wide `missing_coefficients` status. -/
theorem c1_counterexample :
    (computeDoseEffects [⟨"a1", some 0.05, some 0.02⟩, ⟨"a1z", some 0.01, some 0.01⟩,
        ⟨"a2", some 0.3, some 0.1⟩, ⟨"c", some 0.2, some 0.05⟩,
        ⟨"cz", some 0.01, some 0.02⟩]).effects = []
    ∧ (computeDoseEffects [⟨"a1", some 0.05, some 0.02⟩, ⟨"a1z", some 0.01, some 0.01⟩,
        ⟨"a2", some 0.3, some 0.1⟩, ⟨"c", some 0.2, some 0.05⟩,
        ⟨"cz", some 0.01, some 0.02⟩]).validation
        = some { status := "missing_coefficients", missing := ["a2z"] } :=
  ⟨rfl, rfl⟩

/-- C1 amended: whenever any needed coefficient or SE is missing, the
Deriver does not raise but reports a single structured
`missing_coefficients` status naming all absent labels, and returns an
empty effects list for every outcome — the failure is all-or-nothing
across sibling outcomes rather than per-outcome. -/
theorem c1_amended (paths : List PathRec) (h : missingLabels paths ≠ []) :
    (computeDoseEffects paths).effects = []
    ∧ (computeDoseEffects paths).validation
        = some { status := "missing_coefficients", missing := missingLabels paths } := by
  have hne : (missingLabels paths).isEmpty = false := by
    simpa [List.isEmpty_iff] using h
  constructor <;> simp [computeDoseEffects, hne]

/-- C1 witness: the empty parameter table is missing every coefficient;
the Deriver reports all nine labels and produces no curve points. -/
theorem c1_witness :
    (computeDoseEffects []).effects = []
    ∧ (computeDoseEffects []).validation
        = some { status := "missing_coefficients",
                 missing := ["a1", "a1z", "a2", "a2z", "c", "cz",
                             "a1_se", "a2_se", "c_se"] } := by
  have h := c1_amended [] (by decide)
  refine ⟨h.1, h.2.trans ?_⟩
  rfl

/-- C2: for every parameter table that carries usable `a1`, `a1z`, `a2`,
`c`, `cz` rows (estimates, and SEs for `a1`, `a2`, `c`) but whose `a2z`
coefficient is absent, `compute_dose_effects` returns the structured
status `missing_coefficients` with absent-label list exactly `["a2z"]`,
produces zero curve points (an empty effects list), and neither raises
nor substitutes zero for the missing coefficient (the engagement
moderation coefficient stays `None`). -/
theorem c2_missing_a2z (paths : List PathRec) (m1 md1 s1 m2 s2 m3 md3 s3 : ℚ)
    (h1 : (get_path paths "a1").bind PathRec.estimate = some m1)
    (h1z : (get_path paths "a1z").bind PathRec.estimate = some md1)
    (h1s : (get_path paths "a1").bind PathRec.se = some s1)
    (h2 : (get_path paths "a2").bind PathRec.estimate = some m2)
    (h2s : (get_path paths "a2").bind PathRec.se = some s2)
    (h3 : (get_path paths "c").bind PathRec.estimate = some m3)
    (h3z : (get_path paths "cz").bind PathRec.estimate = some md3)
    (h3s : (get_path paths "c").bind PathRec.se = some s3)
    (hz : (get_path paths "a2z").bind PathRec.estimate = none) :
    (computeDoseEffects paths).validation
        = some { status := "missing_coefficients", missing := ["a2z"] }
    ∧ (computeDoseEffects paths).effects = []
    ∧ (computeDoseEffects paths).coefficients.engagement.moderation = none := by
  obtain ⟨r1, hr1, hr1e⟩ := Option.bind_eq_some.mp h1
  obtain ⟨r1z, hr1z, hr1ze⟩ := Option.bind_eq_some.mp h1z
  obtain ⟨r2, hr2, hr2e⟩ := Option.bind_eq_some.mp h2
  obtain ⟨r3, hr3, hr3e⟩ := Option.bind_eq_some.mp h3
  obtain ⟨r3z, hr3z, hr3ze⟩ := Option.bind_eq_some.mp h3z
  rw [hr1] at h1s
  rw [hr2] at h2s
  rw [hr3] at h3s
  simp only [Option.some_bind] at h1s h2s h3s
  have hmiss : missingLabels paths = ["a2z"] := by
    rcases hza : get_path paths "a2z" with _ | rz
    · simp [missingLabels, hr1, hr2, hr3, hr1z, hr3z, hza, hr1e, hr1ze, hr2e,
        hr3e, hr3ze, h1s, h2s, h3s]
    · rw [hza] at hz
      simp only [Option.some_bind] at hz
      simp [missingLabels, hr1, hr2, hr3, hr1z, hr3z, hza, hr1e, hr1ze, hr2e,
        hr3e, hr3ze, h1s, h2s, h3s, hz]
  have hne : (missingLabels paths).isEmpty = false := by
    rw [hmiss]
    rfl
  refine ⟨?_, ?_, ?_⟩
  · simp [computeDoseEffects, hne, hmiss]
  · simp [computeDoseEffects, hne]
  · simp [computeDoseEffects, hne, hz]

/-- C2 witness: a concrete table with all key path rows except `a2z`. -/
theorem c2_witness :
    (computeDoseEffects [⟨"a1", some 0.11, some 0.03⟩, ⟨"a1z", some 0.02, some 0.01⟩,
        ⟨"a2", some 0.25, some 0.08⟩, ⟨"c", some 0.18, some 0.05⟩,
        ⟨"cz", some 0.02, some 0.01⟩]).validation
        = some { status := "missing_coefficients", missing := ["a2z"] }
    ∧ (computeDoseEffects [⟨"a1", some 0.11, some 0.03⟩, ⟨"a1z", some 0.02, some 0.01⟩,
        ⟨"a2", some 0.25, some 0.08⟩, ⟨"c", some 0.18, some 0.05⟩,
        ⟨"cz", some 0.02, some 0.01⟩]).effects = []
    ∧ (computeDoseEffects [⟨"a1", some 0.11, some 0.03⟩, ⟨"a1z", some 0.02, some 0.01⟩,
        ⟨"a2", some 0.25, some 0.08⟩, ⟨"c", some 0.18, some 0.05⟩,
        ⟨"cz", some 0.02, some 0.01⟩]).coefficients.engagement.moderation = none :=
  c2_missing_a2z _ 0.11 0.02 0.03 0.25 0.08 0.18 0.02 0.05
    rfl rfl rfl rfl rfl rfl rfl rfl rfl

/-- C3: when every needed coefficient is present, the Deriver computes
at each grid dose the first-order effect
`effect(dose) = main + ((dose - 12) / 10) * moderation` and the band
half-width `ci_half(dose) = 1.96 * se * (1 + |(dose - 12) / 10| * 0.1)`
(threshold 12, unit width 10), with the output rounded to 4 decimals;
and in particular with main estimate 0.10 and moderation 0.02 the
effect equals 0.10 at dose 12 and 0.12 at dose 22. -/
theorem c3_dose_formula (paths : List PathRec) (m1 md1 s1 m2 md2 s2 m3 md3 s3 : ℚ)
    (h1 : (get_path paths "a1").bind PathRec.estimate = some m1)
    (h1z : (get_path paths "a1z").bind PathRec.estimate = some md1)
    (h1s : (get_path paths "a1").bind PathRec.se = some s1)
    (h2 : (get_path paths "a2").bind PathRec.estimate = some m2)
    (h2z : (get_path paths "a2z").bind PathRec.estimate = some md2)
    (h2s : (get_path paths "a2").bind PathRec.se = some s2)
    (h3 : (get_path paths "c").bind PathRec.estimate = some m3)
    (h3z : (get_path paths "cz").bind PathRec.estimate = some md3)
    (h3s : (get_path paths "c").bind PathRec.se = some s3) :
    ((computeDoseEffects paths).effects = doseRange.map fun (dose : ℕ) =>
      let du := ((dose : ℚ) - 12) / 10
      { creditDose := dose
        distressEffect := round4 (m1 + du * md1)
        distressCI := (round4 (m1 + du * md1 - 1.96 * s1 * (1 + |du| * 0.1)),
                       round4 (m1 + du * md1 + 1.96 * s1 * (1 + |du| * 0.1)))
        engagementEffect := round4 (m2 + du * md2)
        engagementCI := (round4 (m2 + du * md2 - 1.96 * s2 * (1 + |du| * 0.1)),
                         round4 (m2 + du * md2 + 1.96 * s2 * (1 + |du| * 0.1)))
        adjustmentEffect := round4 (m3 + du * md3)
        adjustmentCI := (round4 (m3 + du * md3 - 1.96 * s3 * (1 + |du| * 0.1)),
                         round4 (m3 + du * md3 + 1.96 * s3 * (1 + |du| * 0.1))) })
    ∧ (0.10 : ℚ) + dose_units 12 * 0.02 = 0.10
    ∧ (0.10 : ℚ) + dose_units 22 * 0.02 = 0.12 := by
  obtain ⟨r1, hr1, hr1e⟩ := Option.bind_eq_some.mp h1
  obtain ⟨r1z, hr1z, hr1ze⟩ := Option.bind_eq_some.mp h1z
  obtain ⟨r2, hr2, hr2e⟩ := Option.bind_eq_some.mp h2
  obtain ⟨r2z, hr2z, hr2ze⟩ := Option.bind_eq_some.mp h2z
  obtain ⟨r3, hr3, hr3e⟩ := Option.bind_eq_some.mp h3
  obtain ⟨r3z, hr3z, hr3ze⟩ := Option.bind_eq_some.mp h3z
  rw [hr1] at h1s
  rw [hr2] at h2s
  rw [hr3] at h3s
  simp only [Option.some_bind] at h1s h2s h3s
  have hmiss : missingLabels paths = [] := by
    simp [missingLabels, hr1, hr1z, hr2, hr2z, hr3, hr3z, hr1e, hr1ze, hr2e,
      hr2ze, hr3e, hr3ze, h1s, h2s, h3s]
  refine ⟨?_, by norm_num [dose_units], by norm_num [dose_units]⟩
  simp [computeDoseEffects, hmiss, hr1, hr1z, hr2, hr2z, hr3, hr3z, hr1e, hr1ze,
    hr2e, hr2ze, hr3e, hr3ze, h1s, h2s, h3s, dose_units]

/-- C3 witness: the formula instantiated on a concrete table whose
distress row carries main estimate 0.10, SE 0.05 and moderation 0.02,
together with the spec's two point checks. -/
theorem c3_witness :
    ((computeDoseEffects [⟨"a1", some 0.10, some 0.05⟩, ⟨"a1z", some 0.02, some 0.01⟩,
        ⟨"a2", some 0.30, some 0.10⟩, ⟨"a2z", some 0.05, some 0.02⟩,
        ⟨"c", some 0.20, some 0.04⟩, ⟨"cz", some 0.01, some 0.02⟩]).effects
      = doseRange.map fun (dose : ℕ) =>
        let du := ((dose : ℚ) - 12) / 10
        { creditDose := dose
          distressEffect := round4 (0.10 + du * 0.02)
          distressCI := (round4 (0.10 + du * 0.02 - 1.96 * 0.05 * (1 + |du| * 0.1)),
                         round4 (0.10 + du * 0.02 + 1.96 * 0.05 * (1 + |du| * 0.1)))
          engagementEffect := round4 (0.30 + du * 0.05)
          engagementCI := (round4 (0.30 + du * 0.05 - 1.96 * 0.10 * (1 + |du| * 0.1)),
                           round4 (0.30 + du * 0.05 + 1.96 * 0.10 * (1 + |du| * 0.1)))
          adjustmentEffect := round4 (0.20 + du * 0.01)
          adjustmentCI := (round4 (0.20 + du * 0.01 - 1.96 * 0.04 * (1 + |du| * 0.1)),
                           round4 (0.20 + du * 0.01 + 1.96 * 0.04 * (1 + |du| * 0.1))) })
    ∧ (0.10 : ℚ) + dose_units 12 * 0.02 = 0.10
    ∧ (0.10 : ℚ) + dose_units 22 * 0.02 = 0.12 :=
  c3_dose_formula _ 0.10 0.02 0.05 0.30 0.05 0.10 0.20 0.01 0.04
    rfl rfl rfl rfl rfl rfl rfl rfl rfl

/-! ## Claim C6: the effective sample size invariant -/

lemma sum_affine_sq (l : List ℚ) (a b : ℚ) :
    (l.map fun v => (a * v + b) ^ 2).sum
      = a ^ 2 * (l.map fun v => v ^ 2).sum + 2 * a * b * l.sum
        + b ^ 2 * l.length := by
  induction l with
  | nil => simp
  | cons v t ih =>
    simp only [List.map_cons, List.sum_cons, ih, List.length_cons]
    push_cast
    ring

lemma sum_sq_nonneg (l : List ℚ) : 0 ≤ (l.map fun v => v ^ 2).sum := by
  apply List.sum_nonneg
  intro u hu
  obtain ⟨v, _, rfl⟩ := List.mem_map.mp hu
  exact sq_nonneg v

lemma sum_sq_zero_iff (l : List ℚ) :
    (l.map fun v => v ^ 2).sum = 0 ↔ ∀ v ∈ l, v = 0 := by
  induction l with
  | nil => simp
  | cons v t ih =>
    simp only [List.map_cons, List.sum_cons, List.mem_cons]
    constructor
    · intro h
      have h1 : (0 : ℚ) ≤ v ^ 2 := sq_nonneg v
      have h2 : (0 : ℚ) ≤ (t.map fun u => u ^ 2).sum := sum_sq_nonneg t
      have hv : v ^ 2 = 0 := by linarith
      have ht : (t.map fun u => u ^ 2).sum = 0 := by linarith
      intro u hu
      rcases hu with rfl | hu
      · exact pow_eq_zero_iff (by norm_num) |>.mp hv
      · exact ih.mp ht u hu
    · intro h
      have hv : v = 0 := h v (Or.inl rfl)
      have ht : (t.map fun u => u ^ 2).sum = 0 := ih.mpr fun u hu => h u (Or.inr hu)
      simp [hv, ht]

lemma sum_const_list (l : List ℚ) (c : ℚ) (h : ∀ v ∈ l, v = c) :
    l.sum = l.length * c := by
  induction l with
  | nil => simp
  | cons v t ih =>
    have hv : v = c := h v (List.mem_cons_self v t)
    have ht : t.sum = t.length * c := ih fun u hu => h u (List.mem_cons_of_mem v hu)
    simp [hv, ht, List.length_cons]
    ring

/-- C6 counterexample: the weights `[0, 0]` are constant on the (two)
non-missing entries, so the claim forces `n_eff = 2`; but the code
computes the float quotient `0.0 / 0.0 = NaN`, so `n_eff` is NaN — in
particular the range `0 ≤ n_eff ≤ 2` and the equality-iff-constant
biconditional both fail at this input. -/
theorem c6_counterexample :
    weighted_n_eff [some 0, some 0] = none
    ∧ weighted_n_eff [some 0, some 0] ≠ some 2 := by
  have h : weighted_n_eff [some 0, some 0] = none := by
    norm_num [weighted_n_eff, dropNone_cons_some, dropNone_nil]
  rw [h]
  exact ⟨rfl, by simp⟩

/-- C6 amended: whenever at least one non-missing weight is nonzero,
`weighted_n_eff` returns a value `n_eff` with
`0 ≤ n_eff ≤ count of non-missing weights`, and `n_eff` equals that
count if and only if the weights are constant on the non-missing
entries (so in particular under uniform weights); when the non-missing
weights exist but are all zero the code yields NaN instead. -/
theorem c6_amended (w : List PyVal) (hnz : ∃ q ∈ w.filterMap id, q ≠ 0) :
    ∃ ne : ℚ, weighted_n_eff w = some ne ∧ 0 ≤ ne
      ∧ ne ≤ ((w.filterMap id).length : ℚ)
      ∧ (ne = ((w.filterMap id).length : ℚ)
          ↔ ∀ a ∈ w.filterMap id, ∀ b ∈ w.filterMap id, a = b) := by
  obtain ⟨q, hq, hq0⟩ := hnz
  set ws : List ℚ := w.filterMap id with hws
  set S : ℚ := ws.sum with hS
  set Q : ℚ := (ws.map fun v => v ^ 2).sum with hQ
  set n : ℕ := ws.length with hn
  have hwne : ws ≠ [] := by
    intro hcon
    rw [hcon] at hq
    simp at hq
  have hQpos : 0 < Q := by
    rcases lt_or_eq_of_le (sum_sq_nonneg ws) with h | h
    · exact h
    · exact absurd ((sum_sq_zero_iff ws).mp h.symm q hq) hq0
  have hnpos : 0 < (n : ℚ) := by
    have : 0 < n := List.length_pos.mpr hwne
    exact_mod_cast this
  have hempty : ws.isEmpty = false := by
    simp [List.isEmpty_iff, hwne]
  have hval : weighted_n_eff w = some (S ^ 2 / Q) := by
    simp only [weighted_n_eff, ← hws, hempty, Bool.false_eq_true, if_false,
      ← hQ, ← hS, ne_of_gt hQpos, if_neg (ne_of_gt hQpos)]
  -- the key identity: sum of (n*v - S)^2 over ws equals n * (n*Q - S^2)
  have hkey : (ws.map fun v => ((n : ℚ) * v + (-S)) ^ 2).sum
      = (n : ℚ) * ((n : ℚ) * Q - S ^ 2) := by
    rw [sum_affine_sq]
    ring
  have hkey_nonneg : 0 ≤ (ws.map fun v => ((n : ℚ) * v + (-S)) ^ 2).sum := by
    apply List.sum_nonneg
    intro u hu
    obtain ⟨v, _, rfl⟩ := List.mem_map.mp hu
    exact sq_nonneg _
  have hle : S ^ 2 ≤ (n : ℚ) * Q := by
    nlinarith [hkey_nonneg, hkey]
  refine ⟨S ^ 2 / Q, hval, div_nonneg (sq_nonneg S) (le_of_lt hQpos), ?_, ?_⟩
  · rw [div_le_iff₀ hQpos]
    linarith [hle]
  · constructor
    · intro heq
      have hSQ : S ^ 2 = (n : ℚ) * Q := by
        have := (div_eq_iff (ne_of_gt hQpos)).mp heq
        linarith [this]
      have hzero : (ws.map fun v => ((n : ℚ) * v + (-S)) ^ 2).sum = 0 := by
        rw [hkey]
        nlinarith [hSQ]
      have hall : ∀ v ∈ ws.map fun v => (n : ℚ) * v + (-S), v = 0 := by
        apply (sum_sq_zero_iff _).mp
        rw [List.map_map]
        simpa [Function.comp] using hzero
      intro a ha b hb
      have ha0 : (n : ℚ) * a + (-S) = 0 :=
        hall _ (List.mem_map.mpr ⟨a, ha, rfl⟩)
      have hb0 : (n : ℚ) * b + (-S) = 0 :=
        hall _ (List.mem_map.mpr ⟨b, hb, rfl⟩)
      have : (n : ℚ) * a = (n : ℚ) * b := by linarith
      exact mul_left_cancel₀ (ne_of_gt hnpos) this
    · intro hconst
      have hallq : ∀ v ∈ ws, v = q := fun v hv => hconst v hv q hq
      have hSum : S = (n : ℚ) * q := by
        rw [hS, sum_const_list ws q hallq, hn]
      have hQsum : Q = (n : ℚ) * q ^ 2 := by
        rw [hQ]
        have : ∀ v ∈ ws.map fun u => u ^ 2, v = q ^ 2 := by
          intro v hv
          obtain ⟨u, hu, rfl⟩ := List.mem_map.mp hv
          rw [hallq u hu]
        rw [sum_const_list _ _ this, List.length_map, hn]
      rw [hSum, hQsum]
      field_simp
      ring

/-- C6 witness: the weight vector `[1, 2, NaN]` has a nonzero
non-missing weight, so the amended invariant applies to it. -/
theorem c6_witness :
    ∃ ne : ℚ, weighted_n_eff [some 1, some 2, none] = some ne ∧ 0 ≤ ne
      ∧ ne ≤ ((([some 1, some 2, none] : List PyVal).filterMap id).length : ℚ)
      ∧ (ne = ((([some 1, some 2, none] : List PyVal).filterMap id).length : ℚ)
          ↔ ∀ a ∈ ([some 1, some 2, none] : List PyVal).filterMap id,
              ∀ b ∈ ([some 1, some 2, none] : List PyVal).filterMap id, a = b) :=
  c6_amended [some 1, some 2, none]
    ⟨1, by simp [dropNone_cons_some, dropNone_cons_none, dropNone_nil], one_ne_zero⟩

/-! ## Closed forms for the weighted variance and SD -/

lemma weighted_var_eq (x w : List PyVal) (hne : maskPairs x w ≠ [])
    (hs : sumW (maskPairs x w) ≠ 0) :
    weighted_var x w = .ok (some (varQ (maskPairs x w))) := by
  have hempty : (maskPairs x w).isEmpty = false := by
    simp [List.isEmpty_iff, hne]
  have h1 : npAverage (maskPairs x w) = .ok (meanQ (maskPairs x w)) := by
    simp [npAverage, hs, meanQ]
  have hsw2 : sumW ((maskPairs x w).map
      fun p => ((p.1 - meanQ (maskPairs x w)) ^ 2, p.2)) = sumW (maskPairs x w) := by
    simp only [sumW, List.map_map]
    rfl
  have h2 : npAverage ((maskPairs x w).map
      fun p => ((p.1 - meanQ (maskPairs x w)) ^ 2, p.2))
      = .ok (varQ (maskPairs x w)) := by
    simp only [npAverage, hsw2, if_neg hs, sumWX, List.map_map, varQ]
    rfl
  simp [weighted_var, hempty, h1, h2, Except.map]

lemma weighted_std_eq (x w : List PyVal) (hne : maskPairs x w ≠ [])
    (hs : sumW (maskPairs x w) ≠ 0) :
    weighted_std x w
      = .ok (some (Real.sqrt ((varQ (maskPairs x w) : ℚ) : ℝ))) := by
  simp [weighted_std, weighted_var_eq x w hne hs, Except.map]

/-! ## Claim C8: uniform weights reduce to the unweighted statistics -/

lemma maskPairs_replicate_one (x : List PyVal) :
    maskPairs x (List.replicate x.length (some 1))
      = (x.filterMap id).map fun v => (v, (1 : ℚ)) := by
  induction x with
  | nil => rfl
  | cons a t ih =>
    cases a with
    | none =>
      simpa [List.replicate_succ, maskPairs_cons_none_left, dropNone_cons_none]
        using ih
    | some v =>
      simpa [List.replicate_succ, maskPairs_cons_some, dropNone_cons_some]
        using ih

lemma sumW_map_one (l : List ℚ) :
    sumW (l.map fun v => (v, (1 : ℚ))) = (l.length : ℚ) := by
  induction l with
  | nil => simp [sumW]
  | cons v t ih =>
    simp only [List.map_cons, sumW, List.sum_cons, List.length_cons] at ih ⊢
    rw [ih]
    push_cast
    ring

lemma sumWX_map_one (l : List ℚ) :
    sumWX (l.map fun v => (v, (1 : ℚ))) = l.sum := by
  induction l with
  | nil => simp [sumWX]
  | cons v t ih =>
    simp only [List.map_cons, sumWX, List.sum_cons] at ih ⊢
    rw [ih]
    ring

lemma meanQ_map_one (l : List ℚ) :
    meanQ (l.map fun v => (v, (1 : ℚ))) = specMean l := by
  simp [meanQ, specMean, sumW_map_one, sumWX_map_one]

lemma varQ_map_one (l : List ℚ) :
    varQ (l.map fun v => (v, (1 : ℚ))) = specPopVar l := by
  simp only [varQ, specPopVar, sumW_map_one, meanQ_map_one, List.map_map]
  have hcomp : l.map ((fun p => p.2 * (p.1 - specMean l) ^ 2) ∘ fun v => (v, (1 : ℚ)))
      = l.map fun v => (v - specMean l) ^ 2 := by
    apply List.map_congr_left
    intro v _
    simp [Function.comp]
  rw [hcomp]

/-- C8: with uniform weights (1 on every non-missing entry),
`weighted_mean`, `weighted_std` and `weighted_sem` coincide exactly with
the ordinary mean, the population standard deviation and SD/√n computed
over the non-missing values (exact equality, hence well within the
claimed 1e-9 tolerance); the SEM comparison is stated where both sides
are defined, i.e. on at least two valid observations. -/
theorem c8_uniform_weights (x : List PyVal) (hne : x.filterMap id ≠ []) :
    weighted_mean x (List.replicate x.length (some 1))
        = .ok (some (specMean (x.filterMap id)))
    ∧ weighted_std x (List.replicate x.length (some 1))
        = .ok (some (specPopStd (x.filterMap id)))
    ∧ (2 ≤ (x.filterMap id).length →
        PlotDescriptives.weighted_sem x (List.replicate x.length (some 1))
          = .ok (some (specPopStd (x.filterMap id)
              / Real.sqrt (((x.filterMap id).length : ℕ) : ℝ)))) := by
  set vals : List ℚ := x.filterMap id with hvals
  have hmask : maskPairs x (List.replicate x.length (some 1))
      = vals.map fun v => (v, (1 : ℚ)) := maskPairs_replicate_one x
  have hmaskne : maskPairs x (List.replicate x.length (some 1)) ≠ [] := by
    rw [hmask]
    simpa using hne
  have hlen : (0 : ℚ) < (vals.length : ℚ) := by
    have : 0 < vals.length := List.length_pos.mpr hne
    exact_mod_cast this
  have hsw : sumW (maskPairs x (List.replicate x.length (some 1)))
      = (vals.length : ℚ) := by
    rw [hmask, sumW_map_one]
  have hs : sumW (maskPairs x (List.replicate x.length (some 1))) ≠ 0 := by
    rw [hsw]
    exact ne_of_gt hlen
  have hvar : varQ (maskPairs x (List.replicate x.length (some 1)))
      = specPopVar vals := by
    rw [hmask, varQ_map_one]
  refine ⟨?_, ?_, ?_⟩
  · have hvne : (vals.map fun v => (v, (1 : ℚ))) ≠ [] := by
      simpa using hne
    have hvempty : (vals.map fun v => (v, (1 : ℚ))).isEmpty = false := by
      simp [List.isEmpty_iff, hvne]
    have hs' : sumW (vals.map fun v => (v, (1 : ℚ))) ≠ 0 := by
      rw [sumW_map_one]
      exact ne_of_gt hlen
    simp only [weighted_mean, hmask, hvempty, Bool.false_eq_true, if_false,
      npAverage, sumW_map_one, sumWX_map_one, if_neg (ne_of_gt hlen), Except.map,
      specMean]
  · rw [weighted_std_eq _ _ hmaskne hs, hvar]
    rfl
  · intro h2
    have hlen2 : (maskPairs x (List.replicate x.length (some 1))).length
        = vals.length := by
      rw [hmask, List.length_map]
    have hg2 : ¬ (vals.length ≤ 1) := by omega
    simp only [PlotDescriptives.weighted_sem]
    rw [hlen2, if_neg hg2, weighted_std_eq _ _ hmaskne hs, hvar]
    rfl

/-- C8 witness: the uniform-weight equalities on the concrete vector
`[1, 2, 4, NaN]`. -/
theorem c8_witness :
    weighted_mean [some 1, some 2, some 4, none]
        (List.replicate ([some 1, some 2, some 4, none] : List PyVal).length (some 1))
        = .ok (some (specMean (([some 1, some 2, some 4, none] : List PyVal).filterMap id)))
    ∧ weighted_std [some 1, some 2, some 4, none]
        (List.replicate ([some 1, some 2, some 4, none] : List PyVal).length (some 1))
        = .ok (some (specPopStd (([some 1, some 2, some 4, none] : List PyVal).filterMap id)))
    ∧ PlotDescriptives.weighted_sem [some 1, some 2, some 4, none]
        (List.replicate ([some 1, some 2, some 4, none] : List PyVal).length (some 1))
        = .ok (some (specPopStd (([some 1, some 2, some 4, none] : List PyVal).filterMap id)
            / Real.sqrt (((([some 1, some 2, some 4, none] : List PyVal).filterMap id).length : ℕ) : ℝ))) := by
  have hne : ([some 1, some 2, some 4, none] : List PyVal).filterMap id ≠ [] := by
    simp [dropNone_cons_some, dropNone_cons_none, dropNone_nil]
  have h := c8_uniform_weights [some 1, some 2, some 4, none] hne
  exact ⟨h.1, h.2.1, h.2.2 (by
    simp [dropNone_cons_some, dropNone_cons_none, dropNone_nil])⟩

/-! ## Claim C4: the two weighted_sem implementations -/

/-- C4 counterexample: on `x = [0, 1, 1, 2]`, `w = [1, 2, 2, 4]` the two
`weighted_sem` implementations disagree: the `plot_descriptives` version
divides the SD `2/3` by `√4` (raw count) giving `1/3`, while the
`plot_deep_cuts` version divides by `√(81/25)` (Kish `n_eff`) giving
`10/27`.  Hence the claimed single canonical Kish definition does not
hold at every call site. -/
theorem c4_counterexample :
    PlotDescriptives.weighted_sem [some 0, some 1, some 1, some 2]
        [some 1, some 2, some 2, some 4] = .ok (some ((1 : ℝ) / 3))
    ∧ PlotDeepCuts.weighted_sem [some 0, some 1, some 1, some 2]
        [some 1, some 2, some 2, some 4] = .ok (some ((10 : ℝ) / 27))
    ∧ (1 : ℝ) / 3 ≠ (10 : ℝ) / 27 := by
  have hmask : maskPairs [some 0, some 1, some 1, some 2]
      [some 1, some 2, some 2, some 4]
      = [((0 : ℚ), (1 : ℚ)), (1, 2), (1, 2), (2, 4)] := rfl
  have hne : maskPairs [some 0, some 1, some 1, some 2]
      [some 1, some 2, some 2, some 4] ≠ [] := by
    rw [hmask]
    simp
  have hs : sumW (maskPairs [some 0, some 1, some 1, some 2]
      [some 1, some 2, some 2, some 4]) ≠ 0 := by
    rw [hmask]
    norm_num [sumW]
  have hvar : varQ (maskPairs [some 0, some 1, some 1, some 2]
      [some 1, some 2, some 2, some 4]) = 4 / 9 := by
    rw [hmask]
    norm_num [varQ, meanQ, sumW, sumWX]
  have hstd := weighted_std_eq _ _ hne hs
  rw [hvar] at hstd
  have hsq49 : Real.sqrt ((4 / 9 : ℚ) : ℝ) = 2 / 3 := by
    rw [show ((4 / 9 : ℚ) : ℝ) = (2 / 3 : ℝ) ^ 2 by norm_num]
    exact Real.sqrt_sq (by norm_num)
  refine ⟨?_, ?_, by norm_num⟩
  · have e1 : Real.sqrt ((4 / 9 : ℚ) : ℝ) / Real.sqrt ((4 : ℕ) : ℝ) = 1 / 3 := by
      rw [hsq49, show ((4 : ℕ) : ℝ) = (2 : ℝ) ^ 2 by norm_num,
        Real.sqrt_sq (by norm_num)]
      norm_num
    simp only [PlotDescriptives.weighted_sem, hmask, List.length_cons,
      List.length_nil]
    rw [if_neg (by norm_num), hstd]
    simp only [Except.map, Option.map_some']
    rw [show ((0 : ℕ) + 1 + 1 + 1 + 1) = (4 : ℕ) by norm_num, e1]
  · have hnef : weighted_n_eff ((maskPairs [some 0, some 1, some 1, some 2]
        [some 1, some 2, some 2, some 4]).map fun p => some p.2)
        = some (81 / 25) := by
      rw [hmask]
      norm_num [weighted_n_eff, dropNone_cons_some, dropNone_nil]
    have e2 : Real.sqrt ((4 / 9 : ℚ) : ℝ) / Real.sqrt (((81 / 25 : ℚ) : ℚ) : ℝ)
        = 10 / 27 := by
      rw [hsq49, show (((81 / 25 : ℚ) : ℚ) : ℝ) = (9 / 5 : ℝ) ^ 2 by norm_num,
        Real.sqrt_sq (by norm_num)]
      norm_num
    simp only [PlotDeepCuts.weighted_sem]
    rw [hnef]
    dsimp only
    rw [if_neg (by norm_num), hstd]
    simp only [Except.map, Option.map_some']
    rw [e2]

/-- C4 amended: the `plot_deep_cuts` implementation of `weighted_sem`
does equal `weighted_std / √n_eff` with Kish's
`n_eff = (Σw)² / Σ(w²)` over the jointly non-missing weights (and is
NaN when that `n_eff ≤ 1`); but the `plot_descriptives` implementation
divides by the square root of the RAW COUNT of jointly non-missing
entries instead (NaN when that count ≤ 1), so the single canonical
Kish-based definition does not hold at every call site. -/
theorem c4_amended (x w : List PyVal)
    (h2 : 2 ≤ (maskPairs x w).length) (hs : sumW (maskPairs x w) ≠ 0) :
    PlotDescriptives.weighted_sem x w
      = .ok (some (Real.sqrt ((varQ (maskPairs x w) : ℚ) : ℝ)
          / Real.sqrt (((maskPairs x w).length : ℕ) : ℝ)))
    ∧ (∀ ne : ℚ, weighted_n_eff ((maskPairs x w).map fun p => some p.2) = some ne →
        1 < ne →
        PlotDeepCuts.weighted_sem x w
          = .ok (some (Real.sqrt ((varQ (maskPairs x w) : ℚ) : ℝ)
              / Real.sqrt ((ne : ℚ) : ℝ)))) := by
  have hne : maskPairs x w ≠ [] := by
    intro hcon
    rw [hcon] at h2
    simp at h2
  have hstd := weighted_std_eq x w hne hs
  constructor
  · have hg : ¬ ((maskPairs x w).length ≤ 1) := by omega
    simp only [PlotDescriptives.weighted_sem]
    rw [if_neg hg, hstd]
    rfl
  · intro ne hnef h1
    have hg : ¬ (ne ≤ 1) := not_le.mpr h1
    simp only [PlotDeepCuts.weighted_sem]
    rw [hnef]
    dsimp only
    rw [if_neg hg, hstd]
    rfl

/-- C4 witness: both closed forms instantiated on `x = w = [1, 3]`,
where the raw count is 2 and Kish `n_eff = 8/5`. -/
theorem c4_witness :
    PlotDescriptives.weighted_sem [some 1, some 3] [some 1, some 3]
      = .ok (some (Real.sqrt ((varQ (maskPairs [some 1, some 3] [some 1, some 3]) : ℚ) : ℝ)
          / Real.sqrt (((maskPairs [some 1, some 3] [some 1, some 3]).length : ℕ) : ℝ)))
    ∧ PlotDeepCuts.weighted_sem [some 1, some 3] [some 1, some 3]
      = .ok (some (Real.sqrt ((varQ (maskPairs [some 1, some 3] [some 1, some 3]) : ℚ) : ℝ)
          / Real.sqrt (((8 / 5 : ℚ) : ℚ) : ℝ))) := by
  have hmask : maskPairs [some 1, some 3] [some 1, some 3]
      = [((1 : ℚ), (1 : ℚ)), (3, 3)] := rfl
  have h := c4_amended [some 1, some 3] [some 1, some 3]
    (by rw [hmask]; norm_num)
    (by rw [hmask]; norm_num [sumW])
  refine ⟨h.1, h.2 (8 / 5) ?_ (by norm_num)⟩
  rw [hmask]
  norm_num [weighted_n_eff, dropNone_cons_some, dropNone_nil]

/-! ## Claim C7: weighted correlation bounds -/

lemma sum_quad (l : List (ℚ × ℚ × ℚ)) (t : ℚ) :
    (l.map fun p => p.2.2 * (p.1 + t * p.2.1) ^ 2).sum
      = (l.map fun p => p.2.2 * p.1 ^ 2).sum
        + 2 * t * (l.map fun p => p.2.2 * p.1 * p.2.1).sum
        + t ^ 2 * (l.map fun p => p.2.2 * p.2.1 ^ 2).sum := by
  induction l with
  | nil => simp
  | cons p rest ih =>
    simp only [List.map_cons, List.sum_cons, ih]
    ring

lemma cauchy_aux (A B C : ℚ) (hC : 0 < C)
    (h : ∀ t : ℚ, 0 ≤ A + 2 * t * B + t ^ 2 * C) : B ^ 2 ≤ A * C := by
  have h0 := h (-(B / C))
  have hkey : A + 2 * (-(B / C)) * B + (-(B / C)) ^ 2 * C = A - B ^ 2 / C := by
    field_simp
    ring
  rw [hkey] at h0
  have h1 : B ^ 2 / C ≤ A := by linarith
  calc B ^ 2 = B ^ 2 / C * C := by field_simp
  _ ≤ A * C := mul_le_mul_of_nonneg_right h1 (le_of_lt hC)

lemma list_cauchy (l : List (ℚ × ℚ × ℚ)) (hw : ∀ p ∈ l, 0 ≤ p.2.2)
    (hC : 0 < (l.map fun p => p.2.2 * p.2.1 ^ 2).sum) :
    ((l.map fun p => p.2.2 * p.1 * p.2.1).sum) ^ 2
      ≤ (l.map fun p => p.2.2 * p.1 ^ 2).sum
        * (l.map fun p => p.2.2 * p.2.1 ^ 2).sum := by
  apply cauchy_aux _ _ _ hC
  intro t
  have h0 : 0 ≤ (l.map fun p => p.2.2 * (p.1 + t * p.2.1) ^ 2).sum := by
    apply List.sum_nonneg
    intro u hu
    obtain ⟨p, hp, rfl⟩ := List.mem_map.mp hu
    exact mul_nonneg (hw p hp) (sq_nonneg _)
  rw [sum_quad] at h0
  exact h0

lemma maskTriples_self (x w : List PyVal) :
    ∀ t ∈ maskTriples x x w, t.1 = t.2.1 := by
  induction x generalizing w with
  | nil =>
    intro t ht
    rw [show maskTriples [] [] w = [] from rfl] at ht
    exact absurd ht (List.not_mem_nil t)
  | cons a rest ih =>
    intro t ht
    cases w with
    | nil =>
      rw [show maskTriples (a :: rest) (a :: rest) [] = [] from rfl] at ht
      exact absurd ht (List.not_mem_nil t)
    | cons b ws =>
      cases a with
      | none =>
        rw [maskTriples_cons_none₁] at ht
        exact ih ws t ht
      | some v =>
        cases b with
        | none =>
          rw [maskTriples_cons_none₃] at ht
          exact ih ws t ht
        | some u =>
          rw [maskTriples_cons_sss] at ht
          rcases List.mem_cons.mp ht with rfl | ht
          · rfl
          · exact ih ws t ht

/-- C7: for non-negative weights, whenever the weighted correlation is
defined (at least 2 jointly valid triples, positive total weight, both
weighted variances positive) it lies in `[-1, 1]`; and the correlation
of a variable with itself is exactly 1 whenever its weighted variance is
positive. -/
theorem c7_weighted_corr :
    (∀ x y w : List PyVal,
      2 ≤ (maskTriples x y w).length →
      (∀ p ∈ maskTriples x y w, 0 ≤ p.2.2) →
      0 < tSumW (maskTriples x y w) →
      0 < varXW (maskTriples x y w) →
      0 < varYW (maskTriples x y w) →
      ∃ r : ℝ, weighted_corr x y w = some r ∧ -1 ≤ r ∧ r ≤ 1)
    ∧ (∀ x w : List PyVal,
      2 ≤ (maskTriples x x w).length →
      0 < tSumW (maskTriples x x w) →
      0 < varXW (maskTriples x x w) →
      weighted_corr x x w = some 1) := by
  constructor
  · intro x y w hlen hw hS hvx hvy
    have hval : weighted_corr x y w
        = some ((covW (maskTriples x y w) : ℝ)
            / Real.sqrt ((varXW (maskTriples x y w) : ℝ) * (varYW (maskTriples x y w) : ℝ))) := by
      simp only [weighted_corr]
      rw [if_neg (by omega), if_neg (ne_of_gt hS),
        if_neg (not_or.mpr ⟨not_le.mpr hvx, not_le.mpr hvy⟩)]
    -- Cauchy-Schwarz over the deviation triples
    have hA : (((maskTriples x y w).map fun t =>
        (t.1 - xBar (maskTriples x y w), t.2.1 - yBar (maskTriples x y w), t.2.2)).map
          fun p => p.2.2 * p.1 ^ 2).sum
        = ((maskTriples x y w).map fun t =>
            t.2.2 * (t.1 - xBar (maskTriples x y w)) ^ 2).sum := by
      rw [List.map_map]
      rfl
    have hB : (((maskTriples x y w).map fun t =>
        (t.1 - xBar (maskTriples x y w), t.2.1 - yBar (maskTriples x y w), t.2.2)).map
          fun p => p.2.2 * p.1 * p.2.1).sum
        = ((maskTriples x y w).map fun t =>
            t.2.2 * (t.1 - xBar (maskTriples x y w))
              * (t.2.1 - yBar (maskTriples x y w))).sum := by
      rw [List.map_map]
      rfl
    have hC : (((maskTriples x y w).map fun t =>
        (t.1 - xBar (maskTriples x y w), t.2.1 - yBar (maskTriples x y w), t.2.2)).map
          fun p => p.2.2 * p.2.1 ^ 2).sum
        = ((maskTriples x y w).map fun t =>
            t.2.2 * (t.2.1 - yBar (maskTriples x y w)) ^ 2).sum := by
      rw [List.map_map]
      rfl
    have hCnum : varYW (maskTriples x y w) * tSumW (maskTriples x y w)
        = ((maskTriples x y w).map fun t =>
            t.2.2 * (t.2.1 - yBar (maskTriples x y w)) ^ 2).sum := by
      rw [varYW, div_mul_cancel₀]
      exact ne_of_gt hS
    have hAnum : varXW (maskTriples x y w) * tSumW (maskTriples x y w)
        = ((maskTriples x y w).map fun t =>
            t.2.2 * (t.1 - xBar (maskTriples x y w)) ^ 2).sum := by
      rw [varXW, div_mul_cancel₀]
      exact ne_of_gt hS
    have hBnum : covW (maskTriples x y w) * tSumW (maskTriples x y w)
        = ((maskTriples x y w).map fun t =>
            t.2.2 * (t.1 - xBar (maskTriples x y w))
              * (t.2.1 - yBar (maskTriples x y w))).sum := by
      rw [covW, div_mul_cancel₀]
      exact ne_of_gt hS
    have hw' : ∀ p ∈ (maskTriples x y w).map fun t =>
        (t.1 - xBar (maskTriples x y w), t.2.1 - yBar (maskTriples x y w), t.2.2),
        0 ≤ p.2.2 := by
      intro p hp
      obtain ⟨t, ht, rfl⟩ := List.mem_map.mp hp
      exact hw t ht
    have hCpos : 0 < ((maskTriples x y w).map fun t =>
        t.2.2 * (t.2.1 - yBar (maskTriples x y w)) ^ 2).sum := by
      rw [← hCnum]
      exact mul_pos hvy hS
    have hcs := list_cauchy _ hw' (by rw [hC]; exact hCpos)
    rw [hA, hB, hC] at hcs
    have hkey : covW (maskTriples x y w) ^ 2
        ≤ varXW (maskTriples x y w) * varYW (maskTriples x y w) := by
      rw [← hAnum, ← hBnum, ← hCnum] at hcs
      have hS2 : (0 : ℚ) < tSumW (maskTriples x y w) ^ 2 := pow_pos hS 2
      nlinarith [hcs, hS2]
    have hvpos : (0 : ℝ)
        < (varXW (maskTriples x y w) : ℝ) * (varYW (maskTriples x y w) : ℝ) := by
      exact_mod_cast mul_pos hvx hvy
    have hsqrtpos := Real.sqrt_pos.mpr hvpos
    have hcsR : ((covW (maskTriples x y w) : ℝ)) ^ 2
        ≤ (varXW (maskTriples x y w) : ℝ) * (varYW (maskTriples x y w) : ℝ) := by
      exact_mod_cast hkey
    have habs : |(covW (maskTriples x y w) : ℝ)|
        ≤ Real.sqrt ((varXW (maskTriples x y w) : ℝ) * (varYW (maskTriples x y w) : ℝ)) := by
      rw [← Real.sqrt_sq_eq_abs]
      exact Real.sqrt_le_sqrt hcsR
    have hr : |(covW (maskTriples x y w) : ℝ)
        / Real.sqrt ((varXW (maskTriples x y w) : ℝ) * (varYW (maskTriples x y w) : ℝ))| ≤ 1 := by
      rw [abs_div, abs_of_nonneg (Real.sqrt_nonneg _)]
      exact (div_le_one hsqrtpos).mpr habs
    exact ⟨_, hval, (abs_le.mp hr).1, (abs_le.mp hr).2⟩
  · intro x w hlen hS hvx
    have hself : ∀ t ∈ maskTriples x x w, t.1 = t.2.1 := maskTriples_self x w
    have hsum : ((maskTriples x x w).map fun t => t.2.2 * t.2.1).sum
        = ((maskTriples x x w).map fun t => t.2.2 * t.1).sum := by
      congr 1
      apply List.map_congr_left
      intro t ht
      rw [hself t ht]
    have hyx : yBar (maskTriples x x w) = xBar (maskTriples x x w) := by
      simp only [yBar, xBar, hsum]
    have hcov : covW (maskTriples x x w) = varXW (maskTriples x x w) := by
      simp only [covW, varXW, hyx]
      congr 2
      apply List.map_congr_left
      intro t ht
      rw [← hself t ht]
      ring
    have hvy' : varYW (maskTriples x x w) = varXW (maskTriples x x w) := by
      simp only [varYW, varXW, hyx]
      congr 2
      apply List.map_congr_left
      intro t ht
      rw [← hself t ht]
    have hvxR : (0 : ℝ) < (varXW (maskTriples x x w) : ℝ) := by
      exact_mod_cast hvx
    simp only [weighted_corr]
    rw [if_neg (by omega), if_neg (ne_of_gt hS),
      if_neg (not_or.mpr ⟨not_le.mpr hvx, not_le.mpr (hvy' ▸ hvx)⟩), hcov, hvy']
    congr 1
    rw [Real.sqrt_mul_self (le_of_lt hvxR)]
    exact div_self (ne_of_gt hvxR)

/-- C7 witness: on `x = [1, 2, 3]`, `y = [1, 2, 4]` with unit weights
the correlation is defined and lies in `[-1, 1]`, and the correlation of
`x` with itself is 1. -/
theorem c7_witness :
    (∃ r : ℝ, weighted_corr [some 1, some 2, some 3] [some 1, some 2, some 4]
        [some 1, some 1, some 1] = some r ∧ -1 ≤ r ∧ r ≤ 1)
    ∧ weighted_corr [some 1, some 2, some 3] [some 1, some 2, some 3]
        [some 1, some 1, some 1] = some 1 := by
  have hmask : maskTriples [some 1, some 2, some 3] [some 1, some 2, some 4]
      [some 1, some 1, some 1]
      = [((1 : ℚ), (1 : ℚ), (1 : ℚ)), (2, 2, 1), (3, 4, 1)] := rfl
  have hmask2 : maskTriples [some 1, some 2, some 3] [some 1, some 2, some 3]
      [some 1, some 1, some 1]
      = [((1 : ℚ), (1 : ℚ), (1 : ℚ)), (2, 2, 1), (3, 3, 1)] := rfl
  constructor
  · apply c7_weighted_corr.1
    · rw [hmask]
      norm_num
    · rw [hmask]
      intro p hp
      simp only [List.mem_cons, List.not_mem_nil, or_false] at hp
      rcases hp with rfl | rfl | rfl <;> norm_num
    · rw [hmask]
      norm_num [tSumW]
    · rw [hmask]
      norm_num [varXW, xBar, tSumW]
    · rw [hmask]
      norm_num [varYW, yBar, tSumW]
  · apply c7_weighted_corr.2
    · rw [hmask2]
      norm_num
    · rw [hmask2]
      norm_num [tSumW]
    · rw [hmask2]
      norm_num [varXW, xBar, tSumW]
